import Mathlib

/-
  Verification of the StatusWatch (DownDetector clone) outage status engine
  against its natural-language specification.

  Timestamps are modelled as milliseconds since the epoch (an Int), matching
  the JavaScript Date arithmetic used throughout the frontend sources.
-/

namespace StatusWatch

def msPerHour : Int := 60 * 60 * 1000

def msPerFiveMin : Int := 5 * 60 * 1000

/-- The list of reports falling in the trailing 1-hour window, embedded from
loadStatistics in the service-detail script: the JS filter is
`new Date(r.timestamp) >= oneHourAgo` with `oneHourAgo = now - 60*60*1000`,
a left-closed comparison with no upper bound. -/
def lastHourReports (reports : List Int) (now : Int) : List Int :=
  reports.filter (fun t => decide (now - msPerHour ≤ t))

/-- The trailing 1-hour count displayed by loadStatistics. -/
def lastHourCount (reports : List Int) (now : Int) : Nat :=
  (lastHourReports reports now).length

/-- The trailing 6-hour count displayed by loadStatistics:
`new Date(r.timestamp) >= sixHoursAgo`. -/
def sixHourCount (reports : List Int) (now : Int) : Nat :=
  (reports.filter (fun t => decide (now - 6 * msPerHour ≤ t))).length

/-- The 24-hour count displayed by loadStatistics: the length of the full
list fetched with the hours=24 query, with no further client-side filter. -/
def last24Count (reports : List Int) : Nat :=
  reports.length

/-- The three status values of the engine. -/
inductive Status where
  | up
  | issues
  | down
deriving DecidableEq, Repr

/-- Modelled from the spec: the backend Status Classifier is not under src/;
modelled from spec section 4.2 and the Status Detection Algorithm section of
the repository documentation: fewer than 2 reports in the last hour means up,
2 to 4 means issues, 5 or more means down. The classifier takes only the
1-hour count. -/
def classify (count1h : Nat) : Status :=
  if count1h < 2 then Status.up
  else if count1h ≤ 4 then Status.issues
  else Status.down

/-- The database persists current status as a string; this is the string
value the engine writes for each classifier output (the three enum values
of the compatibility surface). -/
def statusString : Status → String
  | Status.up => "up"
  | Status.issues => "issues"
  | Status.down => "down"

/-- The default value of the current_status column of the services table in
database_schema_optimized.sql (line 73): DEFAULT up. -/
def defaultCurrentStatus : String := "up"

/-- Modelled from the spec: the per-service state machine of section 4.3 is
not under src/. A status string is reachable when it is the schema default
for a newly created service, or the persisted output of a reclassification
step from a reachable state. -/
inductive ReachableStatus : String → Prop where
  | init : ReachableStatus defaultCurrentStatus
  | step (s : String) (n : Nat) :
      ReachableStatus s → ReachableStatus (statusString (classify n))

/-- A status transition descriptor handed to the broadcaster. -/
structure TransitionEvent where
  old : Status
  new : Status
deriving DecidableEq, Repr

/-- The state of one service in the engine: the cached status and the stored
report timestamps. -/
structure EngineState where
  status : Status
  reports : List Int
deriving DecidableEq, Repr

/-- Modelled from the spec: section 4.3 transition function, not under src/.
Recompute the classifier over the 1-hour window; when the output differs from
the cached status, install it and emit a transition descriptor, otherwise
emit nothing. -/
def reclassify (s : EngineState) (now : Int) : EngineState × Option TransitionEvent :=
  let next := classify (lastHourCount s.reports now)
  if next = s.status then (s, none)
  else ({ s with status := next }, some { old := s.status, new := next })

/-- Modelled from the spec: storing a report with its server-assigned
timestamp and triggering reclassification of the owning service at that
instant (section 4.1). -/
def insertReport (s : EngineState) (t : Int) : EngineState × Option TransitionEvent :=
  reclassify { s with reports := t :: s.reports } t

/-- Run a sequence of report insertions, collecting the emitted transition
events in order. -/
def runReports (s : EngineState) : List Int → EngineState × List TransitionEvent
  | [] => (s, [])
  | t :: rest =>
      let p := insertReport s t
      let q := runReports p.1 rest
      (q.1, p.2.toList ++ q.2)

/-- A service starting at up with no reports. -/
def engineInit : EngineState := { status := Status.up, reports := [] }

/-- Five report timestamps within one minute. -/
def fiveReportTimes : List Int := [0, 10000, 20000, 30000, 40000]

/-- Modelled from the spec: the reports from one origin address for one
service falling in the trailing 5-minute rate-limit window (section 4.1),
with the left endpoint excluded per the half-open window convention the spec
states for trailing windows. -/
def recentFromOrigin (priorSameOrigin : List Int) (now : Int) : List Int :=
  priorSameOrigin.filter (fun t => decide (now - msPerFiveMin < t))

/-- Outcome of the ingest-gate rate-limit check. -/
inductive SubmitOutcome where
  | accepted
  | rateLimitExceeded (retryAfter : Int)
deriving DecidableEq, Repr

/-- Modelled from the spec: the Ingest Gate rate limiter is not under src/;
modelled from spec section 4.1 and the Security Features documentation
(max 3 per 5 minutes per IP). Given the prior report times of this origin
for this service, reject when 3 or more fall in the trailing 5-minute
window, with a retry-after equal to the remaining window time of the oldest
in-window report. -/
def submitCheck (priorSameOrigin : List Int) (now : Int) : SubmitOutcome :=
  let recent := recentFromOrigin priorSameOrigin now
  if 3 ≤ recent.length then
    SubmitOutcome.rateLimitExceeded (recent.foldr min now + msPerFiveMin - now)
  else SubmitOutcome.accepted

/-- Number of reports with timestamp in the half-open interval from lo
(inclusive) to hi (exclusive). -/
def countInWindow (reports : List Int) (lo hi : Int) : Nat :=
  (reports.filter (fun t => decide (lo ≤ t ∧ t < hi))).length

/-- Modelled from the spec: the Statistics Aggregator (section 4.5) is not
under src/ (the frontend updateChart only fetches its output). One bucket
per hour over the requested range, starting at the hour boundary startHour,
each bucket carrying its start time and the report count of its half-open
hour interval, zero-filled buckets included. -/
def bucketize (reports : List Int) (startHour : Int) (rangeHours : Nat) :
    List (Int × Nat) :=
  (List.range rangeHours).map (fun k : Nat =>
    (startHour + (k : Int) * msPerHour,
     countInWindow reports (startHour + (k : Int) * msPerHour)
       (startHour + ((k : Int) + 1) * msPerHour)))

/-- Modelled from the spec: the direct range query over the report store for
the same service and range (section 4.5). -/
def rangeQueryCount (reports : List Int) (startHour : Int) (rangeHours : Nat) : Nat :=
  countInWindow reports startHour (startHour + (rangeHours : Int) * msPerHour)

/-- Modelled from the spec: the list reports endpoint (section 6) is not
under src/ (the frontend takes prefixes of its output and the schema indexes
created_at descending). It returns the reports of the window sorted newest
first. -/
def listReports (reports : List Int) (now : Int) (hoursLookback : Nat) : List Int :=
  List.insertionSort (fun a b : Int => a ≥ b)
    (reports.filter (fun t => decide (now - (hoursLookback : Int) * msPerHour ≤ t)))

/-- A row of the outage_reports table of database_schema_optimized.sql
(lines 83-103). DECIMAL coordinates are modelled as scaled integers; the
inet and varchar columns as strings. -/
structure Report where
  id : Nat
  service_id : Nat
  user_id : Option Nat
  title : Option String
  description : Option String
  country : Option String
  region : Option String
  city : Option String
  latitude : Option Int
  longitude : Option Int
  user_ip : Option String
  created_at : Int
  updated_at : Int
deriving DecidableEq, Repr

/-- The tables the report claims touch: user ids, service ids, and the
outage_reports rows. -/
structure DB where
  users : List Nat
  services : List Nat
  reports : List Report
deriving DecidableEq, Repr

/-- The operations of the schema that can touch stored reports: inserting a
report, deleting a service (ON DELETE CASCADE on outage_reports.service_id,
line 85), and deleting a user (ON DELETE SET NULL on outage_reports.user_id,
line 86; the BEFORE UPDATE trigger of lines 185-186 refreshes updated_at on
that referential update). -/
inductive Op where
  | insertReport (r : Report)
  | deleteService (sid : Nat)
  | deleteUser (uid : Nat)
deriving DecidableEq, Repr

/-- Apply one schema operation at wall-clock time now (the trigger writes
CURRENT_TIMESTAMP into updated_at). -/
def applyOp (db : DB) (op : Op) (now : Int) : DB :=
  match op with
  | Op.insertReport r => { db with reports := db.reports ++ [r] }
  | Op.deleteService sid =>
      { db with
        services := db.services.filter (fun s => decide (s ≠ sid)),
        reports := db.reports.filter (fun r => decide (r.service_id ≠ sid)) }
  | Op.deleteUser uid =>
      { db with
        users := db.users.filter (fun u => decide (u ≠ uid)),
        reports := db.reports.map (fun r =>
          if r.user_id = some uid then { r with user_id := none, updated_at := now } else r) }

/-- Run a sequence of timestamped schema operations. -/
def runOps (db : DB) : List (Op × Int) → DB
  | [] => db
  | p :: rest => runOps (applyOp db p.1 p.2) rest

/-- Every column of a report except the mutable user_id reference and the
trigger-maintained updated_at column. -/
def coreFields (r : Report) :
    Nat × Nat × Option String × Option String × Option String × Option String ×
      Option String × Option Int × Option Int × Option String × Int :=
  (r.id, r.service_id, r.title, r.description, r.country, r.region, r.city,
   r.latitude, r.longitude, r.user_ip, r.created_at)

/-- A concrete stored report owned by service 1 and submitted by user 1. -/
def sampleReport : Report :=
  { id := 1, service_id := 1, user_id := some 1, title := none,
    description := none, country := none, region := none, city := none,
    latitude := none, longitude := none, user_ip := none,
    created_at := 0, updated_at := 0 }

/-- A concrete database holding user 1, service 1 and the sample report. -/
def sampleDB : DB := { users := [1], services := [1], reports := [sampleReport] }

/-- The dashboard status rendering of refreshDashboard in dashboard.js
(lines 200-218): icon, css class and label, defaulting to the operational
branch for every status other than issues and down. -/
structure StatusView where
  icon : String
  cssClass : String
  label : String
deriving DecidableEq, Repr

/-- Embedded from refreshDashboard in dashboard.js: statusLabel starts as
Operational with check icon and text-success class, switched to Issues or
Down only on exact match of the status string. -/
def renderStatus (status : String) : StatusView :=
  if status = "issues" then
    { icon := "alert-triangle", cssClass := "text-warning", label := "Issues" }
  else if status = "down" then
    { icon := "x", cssClass := "text-danger", label := "Down" }
  else
    { icon := "check", cssClass := "text-success", label := "Operational" }

/-! ### Helper lemmas -/

theorem length_filter_mono {α : Type} (l : List α) (p q : α → Bool)
    (h : ∀ a, p a = true → q a = true) :
    (l.filter p).length ≤ (l.filter q).length := by
  induction l with
  | nil => simp
  | cons a l ih =>
    simp only [List.filter_cons]
    by_cases hp : p a = true
    · simp only [hp, h a hp, if_pos]
      simpa using ih
    · by_cases hq : q a = true <;> simp only [hp, hq, if_pos, if_neg, Bool.false_eq_true,
        not_false_eq_true, List.length_cons] <;> omega

theorem countInWindow_cons (a : Int) (l : List Int) (lo hi : Int) :
    countInWindow (a :: l) lo hi =
      countInWindow l lo hi + (if lo ≤ a ∧ a < hi then 1 else 0) := by
  by_cases h : lo ≤ a ∧ a < hi
  · simp [countInWindow, List.filter_cons, h]
  · simp [countInWindow, List.filter_cons, h]

theorem countInWindow_degenerate (l : List Int) (lo hi : Int) (h : hi ≤ lo) :
    countInWindow l lo hi = 0 := by
  induction l with
  | nil => rfl
  | cons a t ih =>
    rw [countInWindow_cons, ih]
    have hna : ¬(lo ≤ a ∧ a < hi) := by
      rintro ⟨ha1, ha2⟩
      linarith
    simp [hna]

theorem countInWindow_split (l : List Int) (lo mid hi : Int)
    (h1 : lo ≤ mid) (h2 : mid ≤ hi) :
    countInWindow l lo hi = countInWindow l lo mid + countInWindow l mid hi := by
  induction l with
  | nil => rfl
  | cons a t ih =>
    rw [countInWindow_cons, countInWindow_cons, countInWindow_cons, ih]
    split_ifs <;> omega

theorem bucketize_snd_sum (reports : List Int) (startHour : Int) :
    ∀ n : Nat, ((bucketize reports startHour n).map Prod.snd).sum =
      rangeQueryCount reports startHour n := by
  intro n
  induction n with
  | zero =>
    simp [bucketize, rangeQueryCount]
    exact (countInWindow_degenerate reports startHour startHour le_rfl).symm
  | succ n ih =>
    simp only [bucketize, List.map_map] at ih ⊢
    rw [List.range_succ, List.map_append, List.sum_append, ih]
    simp only [List.map_cons, List.map_nil, List.sum_cons, List.sum_nil, Function.comp]
    rw [rangeQueryCount, rangeQueryCount]
    have hms : (0 : Int) < msPerHour := by norm_num [msPerHour]
    have hlo : startHour ≤ startHour + (n : Int) * msPerHour := by
      have hn : (0 : Int) ≤ (n : Int) := Int.ofNat_nonneg n
      nlinarith
    have hhi : startHour + (n : Int) * msPerHour + msPerHour =
        startHour + ((n + 1 : Nat) : Int) * msPerHour := by
      push_cast
      ring
    rw [countInWindow_split reports startHour (startHour + (n : Int) * msPerHour)
      (startHour + ((n + 1 : Nat) : Int) * msPerHour) hlo (by linarith)]
    have harg : startHour + ((n : Int) + 1) * msPerHour =
        startHour + ((n + 1 : Nat) : Int) * msPerHour := by
      push_cast
      ring
    rw [harg]
    omega

/-! ### Claims -/

/-- Claim C1: the classifier, given the 1-hour report count, returns up for
counts below 2, issues for counts from 2 to 4 inclusive (in particular at
exactly 2), and down for counts of 5 or more (in particular at exactly 5),
for every count, as a function of the 1-hour count alone. -/
theorem classifier_thresholds :
    ∀ n : Nat,
      (classify n = Status.up ↔ n < 2) ∧
      (classify n = Status.issues ↔ 2 ≤ n ∧ n ≤ 4) ∧
      (classify n = Status.down ↔ 5 ≤ n) ∧
      classify 2 = Status.issues ∧ classify 5 = Status.down := by
  intro n
  refine ⟨?_, ?_, ?_, by decide, by decide⟩ <;>
  · unfold classify
    split_ifs <;> simp_all <;> omega

/-- Claim C2 counterexample: with now = 0, a report timestamped exactly at
now - 1h is counted by the 1-hour filter of loadStatistics (the JS
comparison is a left-closed greater-or-equal), so the half-open exclusion
stated by the claim fails on the code. -/
theorem boundary_report_counted :
    lastHourCount [0 - msPerHour] 0 = 1 ∧
    (0 - msPerHour) ∈ lastHourReports [0 - msPerHour] 0 := by
  decide

/-- Claim C2 amended: the 1-hour window of loadStatistics counts a report
exactly when now - 1h is at most its timestamp (left-closed, with no upper
bound applied), so a report timestamped exactly at now - 1h is included; and
re-evaluation over the same inputs yields the same count. -/
theorem one_hour_window_membership :
    ∀ (reports : List Int) (now t : Int),
      (t ∈ lastHourReports reports now ↔ t ∈ reports ∧ now - msPerHour ≤ t) ∧
      (∀ reports2 now2, reports2 = reports → now2 = now →
        lastHourCount reports2 now2 = lastHourCount reports now) := by
  intro reports now t
  constructor
  · simp [lastHourReports, List.mem_filter]
  · intro r2 n2 hr hn
    rw [hr, hn]

/-- Witness for the amended Claim C2 at a concrete input. -/
theorem one_hour_window_membership_witness :
    (5 ∈ lastHourReports [5] 10 ↔ 5 ∈ ([5] : List Int) ∧ 10 - msPerHour ≤ 5) ∧
    lastHourCount [5] 10 = lastHourCount [5] 10 :=
  ⟨(one_hour_window_membership [5] 10 5).1,
   (one_hour_window_membership [5] 10 5).2 [5] 10 rfl rfl⟩

/-- Claim C3 counterexample: from the up state with no reports, five reports
within one minute produce two transition events, up to issues at the second
report and issues to down at the fifth; no single up-to-down event exists,
so the stated scenario of exactly one event from up to down fails. -/
theorem five_reports_two_transitions :
    (runReports engineInit fiveReportTimes).2.length = 2 ∧
    TransitionEvent.mk Status.up Status.down ∉ (runReports engineInit fiveReportTimes).2 ∧
    (runReports engineInit fiveReportTimes).2 =
      [{ old := Status.up, new := Status.issues },
       { old := Status.issues, new := Status.down }] := by
  decide

/-- Claim C3 amended: a transition event is emitted exactly when the
classifier output differs from the cached status, carrying the old cached
status and the new classifier output; consequently five reports within one
minute from the up state produce exactly two transition events, up to
issues at the second report and issues to down at the fifth, and a sixth
report while the status is already down produces no further event. -/
theorem transition_emission :
    (∀ (s : EngineState) (now : Int),
      ((reclassify s now).2 ≠ none ↔ classify (lastHourCount s.reports now) ≠ s.status) ∧
      (∀ e, (reclassify s now).2 = some e →
        e.old = s.status ∧ e.new = classify (lastHourCount s.reports now)) ∧
      (reclassify s now).1.status = classify (lastHourCount s.reports now)) ∧
    (runReports engineInit fiveReportTimes).2 =
      [{ old := Status.up, new := Status.issues },
       { old := Status.issues, new := Status.down }] ∧
    (insertReport (runReports engineInit fiveReportTimes).1 50000).2 = none := by
  refine ⟨?_, by decide, by decide⟩
  intro s now
  by_cases h : classify (lastHourCount s.reports now) = s.status
  · refine ⟨?_, ?_, ?_⟩
    · simp [reclassify, h]
    · intro e he
      simp [reclassify, h] at he
    · simp [reclassify, h]
  · refine ⟨?_, ?_, ?_⟩
    · simp [reclassify, h]
    · intro e he
      simp only [reclassify] at he
      simp [h] at he
      subst he
      exact ⟨rfl, rfl⟩
    · simp [reclassify, h]

/-- Witness for the amended Claim C3 at a concrete input. -/
theorem transition_emission_witness :
    (TransitionEvent.mk Status.up Status.issues).old =
        (EngineState.mk Status.up [0, 1]).status ∧
    (TransitionEvent.mk Status.up Status.issues).new =
      classify (lastHourCount (EngineState.mk Status.up [0, 1]).reports 2) :=
  (transition_emission.1 (EngineState.mk Status.up [0, 1]) 2).2.1
    (TransitionEvent.mk Status.up Status.issues) (by decide)

/-- Claim C9: the three window counts of loadStatistics are monotone over
the nested windows: the 1-hour count is at most the 6-hour count, which is
at most the 24-hour count, for every report list and every now. -/
theorem window_counts_monotone :
    ∀ (reports : List Int) (now : Int),
      lastHourCount reports now ≤ sixHourCount reports now ∧
      sixHourCount reports now ≤ last24Count reports := by
  intro reports now
  constructor
  · simp only [lastHourCount, lastHourReports, sixHourCount]
    apply length_filter_mono
    intro a ha
    have ha2 : now - msPerHour ≤ a := by
      have : decide (now - msPerHour ≤ a) = true := ha
      exact of_decide_eq_true this
    have : now - 6 * msPerHour ≤ a := by
      norm_num [msPerHour] at ha2 ⊢
      linarith
    exact decide_eq_true this
  · simpa [sixHourCount, last24Count] using List.length_filter_le _ reports

/-- Claim C10: the dashboard rendering is total with the operational branch
as default: the label is Issues with warning class exactly for the issues
status, Down with danger class exactly for the down status, and every other
status string renders as Operational with success class. -/
theorem dashboard_render_total :
    ∀ s : String,
      (((renderStatus s).label = "Issues" ∧ (renderStatus s).cssClass = "text-warning") ↔
        s = "issues") ∧
      (((renderStatus s).label = "Down" ∧ (renderStatus s).cssClass = "text-danger") ↔
        s = "down") ∧
      (s ≠ "issues" → s ≠ "down" →
        renderStatus s =
          { icon := "check", cssClass := "text-success", label := "Operational" }) := by
  intro s
  by_cases h1 : s = "issues"
  · subst h1
    exact ⟨by decide, by decide, fun h _ => absurd rfl h⟩
  · by_cases h2 : s = "down"
    · subst h2
      refine ⟨?_, by decide, fun _ h => absurd rfl h⟩
      rw [renderStatus, if_neg (by decide), if_pos rfl]
      constructor
      · intro hx
        exact absurd hx.1 (by decide)
      · intro hx
        exact absurd hx (by decide)
    · refine ⟨?_, ?_, fun _ _ => by rw [renderStatus, if_neg h1, if_neg h2]⟩
      · rw [renderStatus, if_neg h1, if_neg h2]
        constructor
        · intro hx
          exact absurd hx.1 (by decide)
        · intro hx
          exact absurd hx h1
      · rw [renderStatus, if_neg h1, if_neg h2]
        constructor
        · intro hx
          exact absurd hx.1 (by decide)
        · intro hx
          exact absurd hx h2

/-- Witness for Claim C10 at a concrete status string outside the enum. -/
theorem dashboard_render_total_witness :
    renderStatus "bogus" =
      { icon := "check", cssClass := "text-success", label := "Operational" } :=
  (dashboard_render_total "bogus").2.2 (by decide) (by decide)

/-- Claim C4: the ingest gate accepts exactly when fewer than 3 reports from
the same origin to the same service fall in the trailing 5-minute window and
rejects with RateLimitExceeded exactly when 3 or more do; concretely, a 3rd
report on top of 2 recent ones is accepted, a 4th on top of 3 recent ones is
rejected with the remaining window time of the oldest in-window report as
retry-after, and resubmitting after exactly that hint succeeds. -/
theorem rate_limit_boundary :
    (∀ (prior : List Int) (now : Int),
      (submitCheck prior now = SubmitOutcome.accepted ↔
        (recentFromOrigin prior now).length < 3) ∧
      ((∃ ra, submitCheck prior now = SubmitOutcome.rateLimitExceeded ra) ↔
        3 ≤ (recentFromOrigin prior now).length) ∧
      (∀ ra, submitCheck prior now = SubmitOutcome.rateLimitExceeded ra →
        ra = (recentFromOrigin prior now).foldr min now + msPerFiveMin - now)) ∧
    submitCheck [-10000, -20000] 0 = SubmitOutcome.accepted ∧
    submitCheck [-10000, -20000, -30000] 0 = SubmitOutcome.rateLimitExceeded 270000 ∧
    submitCheck [-10000, -20000, -30000] 270000 = SubmitOutcome.accepted := by
  refine ⟨?_, by decide, by decide, by decide⟩
  intro prior now
  by_cases h : 3 ≤ (recentFromOrigin prior now).length
  · refine ⟨?_, ?_, ?_⟩
    · simp [submitCheck, h]
    · simp [submitCheck, h]
    · intro ra hra
      simp [submitCheck, h] at hra
      omega
  · refine ⟨?_, ?_, ?_⟩
    · simp [submitCheck, h]
      omega
    · simp [submitCheck, h]
    · intro ra hra
      simp [submitCheck, h] at hra

/-- Witness for Claim C4 at a concrete input. -/
theorem rate_limit_boundary_witness :
    (270000 : Int) =
      (recentFromOrigin [-10000, -20000, -30000] 0).foldr min 0 + msPerFiveMin - 0 :=
  (rate_limit_boundary.1 [-10000, -20000, -30000] 0).2.2 270000 (by decide)

/-- Claim C7: a newly created service starts with the schema default status
up, and every status reachable by the engine (the default, or any persisted
classifier output) is one of exactly the three values up, issues, down. -/
theorem status_enum_invariant :
    defaultCurrentStatus = "up" ∧
    ∀ s, ReachableStatus s → s = "up" ∨ s = "issues" ∨ s = "down" := by
  refine ⟨rfl, ?_⟩
  intro s h
  induction h with
  | init => exact Or.inl rfl
  | step s n _ _ => cases classify n <;> simp [statusString]

/-- Witness for Claim C7 at the initial state. -/
theorem status_enum_invariant_witness :
    ("up" : String) = "up" ∨ ("up" : String) = "issues" ∨ ("up" : String) = "down" :=
  status_enum_invariant.2 "up" ReachableStatus.init

/-- Claim C8: for every service history and every hoursLookback, the list
reports operation returns exactly the reports of the lookback window as a
sequence sorted newest first (non-increasing timestamps), so every element
of any prefix is at least every element of the corresponding suffix. -/
theorem list_reports_newest_first :
    ∀ (reports : List Int) (now : Int) (hours : Nat),
      List.Sorted (fun a b : Int => a ≥ b) (listReports reports now hours) ∧
      (∀ t, t ∈ listReports reports now hours ↔
        t ∈ reports ∧ now - (hours : Int) * msPerHour ≤ t) ∧
      (∀ (k : Nat) (a b : Int), a ∈ (listReports reports now hours).take k →
        b ∈ (listReports reports now hours).drop k → a ≥ b) := by
  intro reports now hours
  have hsorted : List.Sorted (fun a b : Int => a ≥ b) (listReports reports now hours) :=
    List.sorted_insertionSort _ _
  refine ⟨hsorted, ?_, ?_⟩
  · intro t
    have hperm := List.perm_insertionSort (fun a b : Int => a ≥ b)
      (reports.filter (fun t => decide (now - (hours : Int) * msPerHour ≤ t)))
    rw [listReports, hperm.mem_iff, List.mem_filter]
    simp
  · intro k a b ha hb
    have hsplit := List.take_append_drop k (listReports reports now hours)
    rw [List.Sorted, ← hsplit, List.pairwise_append] at hsorted
    exact hsorted.2.2 a ha b hb

/-- Witness for Claim C8 at a concrete input. -/
theorem list_reports_newest_first_witness :
    (5 : Int) ≥ 3 :=
  (list_reports_newest_first [1, 5, 3] 10 24).2.2 1 5 3 (by decide) (by decide)

/-- Claim C5: for every report history, hour-aligned range start and range
length, the bucketized chart data has one bucket per hour in order (the
bucket starts are exactly the consecutive hour boundaries of the range,
strictly increasing, all present and zero-filled when empty, each aligned to
a wall-clock hour boundary when the range start is), and the bucket counts
sum to the report count of the direct range query over the same range. -/
theorem aggregator_bucket_sum :
    ∀ (reports : List Int) (startHour : Int) (rangeHours : Nat),
      (bucketize reports startHour rangeHours).length = rangeHours ∧
      ((bucketize reports startHour rangeHours).map Prod.fst =
        (List.range rangeHours).map (fun k : Nat => startHour + (k : Int) * msPerHour)) ∧
      List.Pairwise (fun a b : Int => a < b)
        ((bucketize reports startHour rangeHours).map Prod.fst) ∧
      (startHour % msPerHour = 0 →
        ∀ p ∈ bucketize reports startHour rangeHours, p.1 % msPerHour = 0) ∧
      ((bucketize reports startHour rangeHours).map Prod.snd).sum =
        rangeQueryCount reports startHour rangeHours := by
  intro reports startHour rangeHours
  have hfst : (bucketize reports startHour rangeHours).map Prod.fst =
      (List.range rangeHours).map (fun k : Nat => startHour + (k : Int) * msPerHour) := by
    simp [bucketize, List.map_map, Function.comp]
  refine ⟨by simp [bucketize], hfst, ?_, ?_, bucketize_snd_sum reports startHour rangeHours⟩
  · rw [hfst]
    apply List.Pairwise.map (fun k : Nat => startHour + (k : Int) * msPerHour) ?_
      (List.pairwise_lt_range rangeHours)
    intro a b hab
    show startHour + (a : Int) * msPerHour < startHour + (b : Int) * msPerHour
    have hab2 : (a : Int) < (b : Int) := by exact_mod_cast hab
    have hms : (0 : Int) < msPerHour := by norm_num [msPerHour]
    have := mul_lt_mul_of_pos_right hab2 hms
    linarith
  · intro halign p hp
    simp only [bucketize, List.mem_map, List.mem_range] at hp
    obtain ⟨k, _, hk⟩ := hp
    rw [← hk]
    norm_num [msPerHour] at halign ⊢
    omega

/-- Witness for Claim C5 at a concrete input: two hour buckets from the
epoch hour boundary over a single report. -/
theorem aggregator_bucket_sum_witness :
    ((bucketize [100] 0 2).map Prod.snd).sum = rangeQueryCount [100] 0 2 ∧
    (0 : Int) % msPerHour = 0 :=
  ⟨(aggregator_bucket_sum [100] 0 2).2.2.2.2,
   (aggregator_bucket_sum [100] 0 2).2.2.2.1 (by decide)
     (0, 1) (by decide) |>.symm ▸ rfl⟩

theorem step_preserves_core (db : DB) (op : Op) (now : Int) (r : Report)
    (h : r ∈ db.reports) :
    (∃ r1 ∈ (applyOp db op now).reports, coreFields r1 = coreFields r) ∨
    op = Op.deleteService r.service_id := by
  cases op with
  | insertReport q =>
    left
    exact ⟨r, by simp [applyOp, h], rfl⟩
  | deleteService sid =>
    by_cases hs : r.service_id = sid
    · right
      rw [hs]
    · left
      refine ⟨r, ?_, rfl⟩
      simp [applyOp, List.mem_filter, h, hs]
  | deleteUser uid =>
    left
    by_cases hu : r.user_id = some uid
    · refine ⟨{ r with user_id := none, updated_at := now }, ?_, rfl⟩
      simp only [applyOp]
      exact List.mem_map.mpr ⟨r, h, by rw [if_pos hu]⟩
    · refine ⟨r, ?_, rfl⟩
      simp only [applyOp]
      exact List.mem_map.mpr ⟨r, h, by rw [if_neg hu]⟩

/-- Claim C6 counterexample: deleting user 1 leaves the sample report stored
(same id) but with its user_id column changed from some 1 to none by the ON
DELETE SET NULL referential action of the schema, with updated_at refreshed
by the update trigger: a stored report field is updated by an operation
other than the owning service deletion cascade. -/
theorem user_delete_mutates_report :
    (applyOp sampleDB (Op.deleteUser 1) 7).reports =
      [{ sampleReport with user_id := none, updated_at := 7 }] ∧
    sampleReport.user_id = some 1 ∧
    (applyOp sampleDB (Op.deleteUser 1) 7).reports.map (fun r => r.id) = [1] := by
  decide

/-- Claim C6 amended: once stored, a report keeps every core field (id,
owning service, creation timestamp, location columns, coordinates,
description, title, origin address) unchanged under every schema operation,
and is removed only by the deletion cascade of its owning service; the only
mutable columns are the user_id reference, nulled when the submitting user
is deleted, and the trigger-maintained updated_at. -/
theorem report_core_immutable :
    (∀ (db : DB) (op : Op) (now : Int) (r2 : Report),
      r2 ∈ (applyOp db op now).reports →
        (∃ r0 ∈ db.reports, coreFields r2 = coreFields r0) ∨ op = Op.insertReport r2) ∧
    (∀ (db : DB) (ops : List (Op × Int)) (r : Report), r ∈ db.reports →
      (∃ r2 ∈ (runOps db ops).reports, coreFields r2 = coreFields r) ∨
      (∃ p ∈ ops, p.1 = Op.deleteService r.service_id)) := by
  constructor
  · intro db op now r2 h
    cases op with
    | insertReport q =>
      simp only [applyOp, List.mem_append, List.mem_singleton] at h
      rcases h with h | h
      · exact Or.inl ⟨r2, h, rfl⟩
      · subst h
        exact Or.inr rfl
    | deleteService sid =>
      left
      exact ⟨r2, List.mem_of_mem_filter h, rfl⟩
    | deleteUser uid =>
      left
      simp only [applyOp, List.mem_map] at h
      obtain ⟨r0, hr0, hmap⟩ := h
      refine ⟨r0, hr0, ?_⟩
      rw [← hmap]
      by_cases hu : r0.user_id = some uid
      · rw [if_pos hu]
        rfl
      · rw [if_neg hu]
  · intro db ops r
    induction ops generalizing db r with
    | nil =>
      intro h
      exact Or.inl ⟨r, h, rfl⟩
    | cons p rest ih =>
      intro h
      rcases step_preserves_core db p.1 p.2 r h with ⟨r1, hr1, hcore⟩ | hdel
      · rcases ih (applyOp db p.1 p.2) r1 hr1 with ⟨r2, hr2, hcore2⟩ | ⟨q, hq, hqdel⟩
        · exact Or.inl ⟨r2, hr2, hcore2.trans hcore⟩
        · refine Or.inr ⟨q, List.mem_cons_of_mem p hq, ?_⟩
          have hsid : r1.service_id = r.service_id :=
            congrArg (fun x => x.2.1) hcore
          rw [hqdel, hsid]
      · exact Or.inr ⟨p, List.mem_cons_self p rest, hdel⟩

/-- Witness for the amended Claim C6 at a concrete input. -/
theorem report_core_immutable_witness :
    (∃ r2 ∈ (runOps sampleDB ([(Op.deleteUser 1, 7)] : List (Op × Int))).reports,
      coreFields r2 = coreFields sampleReport) ∨
    (∃ p ∈ ([(Op.deleteUser 1, 7)] : List (Op × Int)),
      p.1 = Op.deleteService sampleReport.service_id) :=
  report_core_immutable.2 sampleDB ([(Op.deleteUser 1, 7)] : List (Op × Int))
    sampleReport (by decide)

end StatusWatch
